import Mathlib

/-!
Shallow embedding of the `it2open` tool (Go), covering the pure core:
the layout computation `distributeCommands` and the operation sequence
denoted by the two AppleScript templates (`src/it2open.go` and the
earlier iteration `src/unnamed/part_000`).

Go runtime panics (integer division by zero, `make` with a negative
length) are modelled by `Option`: `none` marks a run that aborts with a
panic.  Machine integers are modelled by `Nat`/`Int`; every quantity the
program forms on the paths we verify is nonnegative and far from 2^63,
so no wrap-around modelling is needed.
-/

namespace It2Open

/-- An abstract operation of the generated AppleScript, as described by
the templates: create a tab, split vertically/horizontally, cycle focus
to the next pane (the command-"]" keystroke), pause, or type a command
into the focused pane.  The `delay` payload is the rendered delay
literal (the template interpolates the single configured value at every
occurrence). -/
inductive Op where
  | newTab
  | splitV
  | splitH
  | focusNext
  | delay (d : String)
  | write (cmd : String)
  deriving DecidableEq, Repr

/-- Division as Go evaluates `/` on nonnegative `int` values: division
by zero aborts the program with a runtime panic, modelled as `none`.
On the nonnegative operands the program forms, Go's truncated division
agrees with `Nat` division. -/
def goDiv (a b : Nat) : Option Nat :=
  if b = 0 then none else some (a / b)

/-- The template helper `until` from `funcMap`:
`r := make([]int, n); for i := range r { r[i] = i }; return r`.
Go's `make` aborts with a runtime panic when `n` is negative, modelled
as `none`. -/
def goUntil (n : Int) : Option (List Nat) :=
  if n < 0 then none else some (List.range n.toNat)

/-- The assignment `g[c][r] = v` on a `[][]string` grid.
(`List.set` is the identity out of range; on the verified paths every
write is in range, which the lemmas below establish.) -/
def setCell (g : List (List String)) (c r : Nat) (v : String) : List (List String) :=
  g.set c ((g.getD c []).set r v)

/-- Reading `g[c][r]`; the Go zero value `""` stands for cells never
assigned. -/
def getCell (g : List (List String)) (c r : Nat) : String :=
  (g.getD c []).getD r ""

/-- The grid allocation of `distributeCommands`:
`r := make([][]string, cols); for i := range r { r[i] = make([]string, rows) }`,
i.e. `cols` columns of `rows` zero-valued cells each. -/
def initGrid (cols rows : Nat) : List (List String) :=
  List.replicate cols (List.replicate rows "")

/-- The filling loop of `distributeCommands`:
`for i, cmd := range cmds { r[i%cols][i/cols] = cmd }`, with the index
`i` starting at `k`. -/
def fillGrid (cols : Nat) : Nat → List String → List (List String) → List (List String)
  | _, [], g => g
  | k, cmd :: rest, g => fillGrid cols (k + 1) rest (setCell g (k % cols) (k / cols) cmd)

/-- `distributeCommands` from `src/it2open.go` (lines 84-94):
`rows := (len(cmds) + cols - 1) / cols`, allocate `cols` columns of
`rows` cells, then place command `i` at column `i % cols`, row
`i / cols`.  For `cols = 0` the `rows` computation divides by zero and
the program panics (`none`).  (For `len(cmds) = 0` and `cols = 0` Go
would form `-1` as the dividend; the dividend is irrelevant there since
the division panics either way.) -/
def distributeCommands (cmds : List String) (cols : Nat) : Option (List (List String)) :=
  (goDiv (cmds.length + cols - 1) cols).map fun rows =>
    fillGrid cols 0 cmds (initGrid cols rows)

/-- The per-column inner loop of `appleScriptTemplate` (src/it2open.go
lines 159-163): for each element of `until (sub (len $col) 1)` emit a
delay, a horizontal split and a focus keystroke. -/
def rowSplitOps (d : String) : List Nat → List Op
  | [] => []
  | _ :: rest => Op.delay d :: Op.splitH :: Op.focusNext :: rowSplitOps d rest

/-- One iteration of the `range $i, $col := .Layout` loop (src/it2open.go
lines 158-165): the inner loop over `until (sub (len $col) 1)` — which
panics when the column is empty, since `until` is then called with `-1`
— followed by one focus keystroke. -/
def colOps (d : String) (col : List String) : Option (List Op) :=
  (goUntil ((col.length : Int) - 1)).map fun js =>
    rowSplitOps d js ++ [Op.focusNext]

/-- The whole `range $i, $col := .Layout` loop, concatenating the
per-column operations in order. -/
def layoutColsOps (d : String) : List (List String) → Option (List Op)
  | [] => some []
  | col :: rest =>
    (colOps d col).bind fun first =>
      (layoutColsOps d rest).map fun tail => first ++ tail

/-- The vertical-split loop (src/it2open.go lines 151-155):
`range until .Cols`, emitting a vertical split for every index
greater than 0. -/
def vertOps (cols : Nat) : Option (List Op) :=
  (goUntil (cols : Int)).map fun is =>
    is.filterMap fun i => if 0 < i then some Op.splitV else none

/-- The final loop (src/it2open.go lines 168-172): for each command, in
input order, write it, cycle focus, and delay. -/
def writeOps (d : String) : List String → List Op
  | [] => []
  | c :: rest => Op.write c :: Op.focusNext :: Op.delay d :: writeOps d rest

/-- The operation sequence denoted by `appleScriptTemplate` of
`src/it2open.go` (lines 147-174): optional tab creation, the
vertical-split loop, a delay, the per-column horizontal-split loops, a
delay, then the write loop. -/
def appleScriptOps (cols : Nat) (ntab : Bool) (d : String)
    (layout : List (List String)) (cmds : List String) : Option (List Op) :=
  (vertOps cols).bind fun verts =>
    (layoutColsOps d layout).map fun mids =>
      (if ntab then [Op.newTab] else []) ++ verts ++ [Op.delay d] ++ mids
        ++ [Op.delay d] ++ writeOps d cmds

/-- The pure core of `run` from `src/it2open.go`: the `rows`
computation of line 43 (which panics when `cols = 0`), the call to
`distributeCommands`, and the template execution over the resulting
context. -/
def runGen (cmds : List String) (cols : Nat) (ntab : Bool) (d : String) : Option (List Op) :=
  (goDiv (cmds.length + cols - 1) cols).bind fun _rows =>
    (distributeCommands cmds cols).bind fun layout =>
      appleScriptOps cols ntab d layout cmds

/-- One iteration of the command loop of the template in
`src/unnamed/part_000` (lines 135-154).  For `i < cols` (and `i > 0`) a
vertical split, focus keystroke and delay precede the write; for
`i >= cols` a delay, `i - cols` focus keystrokes, a delay, a horizontal
split and a delay precede it.  (In the second branch the template
computes `sub $i $cols` with `i >= cols`, so the `Nat` subtraction is
exact.) -/
def stepOpsV0 (d : String) (cols i : Nat) (cmd : String) : List Op :=
  (if i < cols then
    (if 0 < i then [Op.splitV, Op.focusNext, Op.delay d] else [])
  else
    Op.delay d :: (List.replicate (i - cols) Op.focusNext
      ++ [Op.delay d, Op.splitH, Op.delay d]))
  ++ [Op.write cmd]

/-- The `range $i, $cmd := $cmds` loop of the `part_000` template, with
the index starting at `k`. -/
def bodyOpsV0 (d : String) (cols : Nat) : Nat → List String → List Op
  | _, [] => []
  | k, cmd :: rest => stepOpsV0 d cols k cmd ++ bodyOpsV0 d cols (k + 1) rest

/-- The operation sequence denoted by the template of
`src/unnamed/part_000` (lines 130-156): optional tab creation followed
by the per-command loop. -/
def appleScriptOpsV0 (cols : Nat) (ntab : Bool) (d : String) (cmds : List String) : List Op :=
  (if ntab then [Op.newTab] else []) ++ bodyOpsV0 d cols 0 cmds

/-- Structural operations: everything except focus cycling and delays. -/
def coreOp : Op → Bool
  | .newTab => true
  | .splitV => true
  | .splitH => true
  | .focusNext => false
  | .delay _ => false
  | .write _ => true

/-- Recognizes either kind of split. -/
def isSplit : Op → Bool
  | .newTab => false
  | .splitV => true
  | .splitH => true
  | .focusNext => false
  | .delay _ => false
  | .write _ => false

/-- Recognizes a vertical split. -/
def isVert : Op → Bool
  | .splitV => true
  | .newTab => false
  | .splitH => false
  | .focusNext => false
  | .delay _ => false
  | .write _ => false

/-- Recognizes a horizontal split. -/
def isHoriz : Op → Bool
  | .splitH => true
  | .newTab => false
  | .splitV => false
  | .focusNext => false
  | .delay _ => false
  | .write _ => false

/-- Extracts the payload of a `write` operation. -/
def writeArg : Op → Option String
  | .write s => some s
  | .newTab => none
  | .splitV => none
  | .splitH => none
  | .focusNext => none
  | .delay _ => none

/-- The row count the code computes (src/it2open.go lines 43 and 85):
`(n + cols - 1) / cols`. -/
def gridRows (n cols : Nat) : Nat := (n + cols - 1) / cols

/-- Modelled from the spec: `ceil(a / b)` on naturals with `b >= 1`, the
ceiling division the spec's row formula is stated with. -/
def ceilDivSpec (a b : Nat) : Nat := (a + b - 1) / b

/-- Shape of the per-column section of the main template when the
layout has `m` columns of `R` cells each. -/
def colsSection (d : String) (R : Nat) : Nat → List Op
  | 0 => []
  | m + 1 => (rowSplitOps d (List.range (R - 1)) ++ [Op.focusNext]) ++ colsSection d R m

/-! ### List helper lemmas -/

theorem getD_set_self {α : Type} (l : List α) (i : Nat) (a d : α) :
    (l.set i a).getD i d = if i < l.length then a else l.getD i d := by
  induction l generalizing i with
  | nil => simp
  | cons x xs ih =>
    cases i with
    | zero => simp
    | succ n => simpa [Nat.succ_lt_succ_iff] using ih n

theorem getD_set_ne {α : Type} (l : List α) (i j : Nat) (a d : α) (h : i ≠ j) :
    (l.set i a).getD j d = l.getD j d := by
  induction l generalizing i j with
  | nil => simp
  | cons x xs ih =>
    cases i with
    | zero =>
      cases j with
      | zero => exact absurd rfl h
      | succ m => simp
    | succ n =>
      cases j with
      | zero => simp
      | succ m => simpa using ih n m (by omega)

theorem getD_replicate {α : Type} (n i : Nat) (a d : α) :
    (List.replicate n a).getD i d = if i < n then a else d := by
  induction n generalizing i with
  | zero => simp
  | succ m ih =>
    cases i with
    | zero => simp [List.replicate_succ]
    | succ k => simpa [List.replicate_succ, Nat.succ_lt_succ_iff] using ih k

theorem getD_eq_get {α : Type} (l : List α) (i : Nat) (d : α) (h : i < l.length) :
    l.getD i d = l[i] := by
  induction l generalizing i with
  | nil => simp at h
  | cons x xs ih =>
    cases i with
    | zero => rfl
    | succ n => simpa using ih n (by simpa using h)

theorem countP_replicate {α : Type} (p : α → Bool) (n : Nat) (a : α) :
    (List.replicate n a).countP p = if p a then n else 0 := by
  induction n with
  | zero => simp
  | succ m ih =>
    rw [List.replicate_succ, List.countP_cons, ih]
    by_cases h : p a <;> simp [h]

theorem filterMap_replicate_none {α β : Type} (f : α → Option β) (n : Nat) (a : α)
    (h : f a = none) : (List.replicate n a).filterMap f = [] := by
  induction n with
  | zero => rfl
  | succ m ih => rw [List.replicate_succ, List.filterMap_cons, h, ih]

/-! ### Grid lemmas: `setCell`, `fillGrid`, `initGrid` -/

theorem length_setCell (g : List (List String)) (c r : Nat) (v : String) :
    (setCell g c r v).length = g.length := by
  simp [setCell]

theorem colLen_setCell (g : List (List String)) (c r : Nat) (v : String) (c' : Nat) :
    ((setCell g c r v).getD c' []).length = (g.getD c' []).length := by
  unfold setCell
  by_cases h : c = c'
  · subst h
    rw [getD_set_self]
    by_cases hc : c < g.length <;> simp [hc]
  · rw [getD_set_ne _ _ _ _ _ h]

theorem getCell_setCell_self (g : List (List String)) (c r : Nat) (v : String)
    (hc : c < g.length) (hr : r < (g.getD c []).length) :
    getCell (setCell g c r v) c r = v := by
  unfold getCell setCell
  rw [getD_set_self, if_pos hc, getD_set_self, if_pos hr]

theorem getCell_setCell_ne (g : List (List String)) (c r : Nat) (v : String)
    (c' r' : Nat) (h : c ≠ c' ∨ r ≠ r') :
    getCell (setCell g c r v) c' r' = getCell g c' r' := by
  unfold getCell setCell
  rcases h with h | h
  · rw [getD_set_ne _ _ _ _ _ h]
  · by_cases hcc : c = c'
    · subst hcc
      rw [getD_set_self]
      by_cases hc : c < g.length
      · rw [if_pos hc, getD_set_ne _ _ _ _ _ h]
      · rw [if_neg hc]
    · rw [getD_set_ne _ _ _ _ _ hcc]

theorem length_fillGrid (cols : Nat) (cmds : List String) :
    ∀ (k : Nat) (g : List (List String)), (fillGrid cols k cmds g).length = g.length := by
  induction cmds with
  | nil => intro k g; rfl
  | cons cmd rest ih =>
    intro k g
    rw [fillGrid, ih, length_setCell]

theorem colLen_fillGrid (cols : Nat) (cmds : List String) :
    ∀ (k : Nat) (g : List (List String)) (c' : Nat),
      ((fillGrid cols k cmds g).getD c' []).length = (g.getD c' []).length := by
  induction cmds with
  | nil => intro k g c'; rfl
  | cons cmd rest ih =>
    intro k g c'
    rw [fillGrid, ih, colLen_setCell]

theorem getCell_initGrid (cols R c r : Nat) :
    getCell (initGrid cols R) c r = "" := by
  unfold getCell initGrid
  rw [getD_replicate]
  by_cases h : c < cols
  · rw [if_pos h, getD_replicate]
    by_cases h' : r < R <;> simp [h']
  · rw [if_neg h]
    rfl

theorem length_initGrid (cols R : Nat) : (initGrid cols R).length = cols := by
  simp [initGrid]

theorem colLen_initGrid (cols R c : Nat) (h : c < cols) :
    ((initGrid cols R).getD c []).length = R := by
  unfold initGrid
  rw [getD_replicate, if_pos h, List.length_replicate]

/-- Characterization of the filling loop: starting the index at `k` on a
grid of `cols` columns of `R` cells each, the cell `(c, r)` afterwards
holds the command whose index is `r * cols + c` when that index lies in
the processed window, and is untouched otherwise. -/
theorem getCell_fillGrid (cols R : Nat) (hc : 0 < cols) (cmds : List String) :
    ∀ (k : Nat) (g : List (List String)),
      g.length = cols →
      (∀ c, c < cols → (g.getD c []).length = R) →
      (∀ j, j < cmds.length → (k + j) / cols < R) →
      ∀ c r, getCell (fillGrid cols k cmds g) c r =
        if c < cols ∧ k ≤ r * cols + c ∧ r * cols + c < k + cmds.length
        then cmds.getD (r * cols + c - k) "" else getCell g c r := by
  induction cmds with
  | nil =>
    intro k g _ _ _ c r
    have h : ¬ (c < cols ∧ k ≤ r * cols + c ∧
        r * cols + c < k + ([] : List String).length) := by
      simp only [List.length_nil]
      omega
    rw [if_neg h]
    rfl
  | cons x rest ih =>
    intro k g hg hcol hfit c r
    rw [fillGrid]
    have hg' : (setCell g (k % cols) (k / cols) x).length = cols := by
      rw [length_setCell]; exact hg
    have hcol' : ∀ c', c' < cols →
        ((setCell g (k % cols) (k / cols) x).getD c' []).length = R := by
      intro c' hc'
      rw [colLen_setCell]; exact hcol c' hc'
    have hfit' : ∀ j, j < rest.length → (k + 1 + j) / cols < R := by
      intro j hj
      have heq : k + 1 + j = k + (j + 1) := by omega
      rw [heq]
      exact hfit (j + 1) (by simpa using Nat.succ_lt_succ hj)
    rw [ih (k + 1) _ hg' hcol' hfit' c r]
    have hk : k % cols < cols := Nat.mod_lt _ hc
    have hdm : cols * (k / cols) + k % cols = k := Nat.div_add_mod k cols
    by_cases h1 : c < cols ∧ k + 1 ≤ r * cols + c ∧ r * cols + c < k + 1 + rest.length
    · rw [if_pos h1]
      have hcond : c < cols ∧ k ≤ r * cols + c ∧ r * cols + c < k + (x :: rest).length := by
        simp only [List.length_cons]
        omega
      rw [if_pos hcond]
      have hsub : r * cols + c - k = (r * cols + c - (k + 1)) + 1 := by omega
      rw [hsub, List.getD_cons_succ]
    · rw [if_neg h1]
      by_cases h2 : c < cols ∧ k ≤ r * cols + c ∧ r * cols + c < k + (x :: rest).length
      · rw [if_pos h2]
        have hm : r * cols + c = k := by
          simp only [List.length_cons] at h2
          omega
        have hcv : c = k % cols := by
          have h6 : cols * r + c = k := by rw [Nat.mul_comm cols r]; exact hm
          have h5 := Nat.mul_add_mod cols r c
          rw [h6] at h5
          rw [h5, Nat.mod_eq_of_lt h2.1]
        have hrv : r = k / cols := by
          have h3 : (r * cols + c) / cols = r + c / cols := by
            rw [Nat.mul_comm r cols]
            exact Nat.mul_add_div hc r c
          have h4 : c / cols = 0 := Nat.div_eq_of_lt h2.1
          rw [hm, h4] at h3
          omega
        have hsub : r * cols + c - k = 0 := by omega
        rw [hsub, List.getD_cons_zero, hcv, hrv]
        exact getCell_setCell_self g _ _ x (by rw [hg]; exact hk)
          (by rw [hcol _ hk]; simpa using hfit 0 (by simp))
      · rw [if_neg h2]
        apply getCell_setCell_ne
        by_contra hne
        push_neg at hne
        apply h2
        refine ⟨?_, ?_, ?_⟩
        · rw [← hne.1]; exact hk
        · have : r * cols + c = k := by
            rw [← hne.1, ← hne.2, Nat.mul_comm]
            exact hdm
          omega
        · have : r * cols + c = k := by
            rw [← hne.1, ← hne.2, Nat.mul_comm]
            exact hdm
          simp only [List.length_cons]
          omega

/-! ### Layout characterization -/

theorem distributeCommands_eq (cmds : List String) (cols : Nat) (hc : 1 ≤ cols) :
    distributeCommands cmds cols =
      some (fillGrid cols 0 cmds (initGrid cols (gridRows cmds.length cols))) := by
  have h0 : cols ≠ 0 := by omega
  simp [distributeCommands, goDiv, gridRows, h0]

theorem gridRows_zero (cols : Nat) (hc : 1 ≤ cols) : gridRows 0 cols = 0 := by
  unfold gridRows
  exact Nat.div_eq_of_lt (by omega)

theorem gridRows_succ (n cols : Nat) (hc : 1 ≤ cols) (hn : 1 ≤ n) :
    gridRows n cols = (n - 1) / cols + 1 := by
  unfold gridRows
  have h : n + cols - 1 = (n - 1) + cols := by omega
  rw [h, Nat.add_div_right _ (by omega)]

theorem div_lt_gridRows (n cols j : Nat) (hc : 1 ≤ cols) (hj : j < n) :
    j / cols < gridRows n cols := by
  rw [gridRows_succ n cols hc (by omega)]
  exact Nat.lt_succ_of_le (Nat.div_le_div_right (by omega))

/-- The code's row count coincides with the spec's formula
`ceil(n / min(cols, max(n,1)))`. -/
theorem gridRows_eq_spec (n cols : Nat) (hc : 1 ≤ cols) :
    gridRows n cols = ceilDivSpec n (min cols (max n 1)) := by
  rcases Nat.eq_zero_or_pos n with h0 | hpos
  · subst h0
    have hmin : min cols (max 0 1) = 1 := by
      simp [Nat.max_eq_right (by omega : 0 ≤ 1), Nat.min_eq_right hc]
    rw [gridRows_zero cols hc, hmin]
    rfl
  · have hmax : max n 1 = n := Nat.max_eq_left hpos
    rw [hmax]
    rcases Nat.le_total cols n with hle | hge
    · rw [Nat.min_eq_left hle]
      rfl
    · rw [Nat.min_eq_right hge]
      unfold gridRows ceilDivSpec
      have h1 : (n + cols - 1) / cols = 1 :=
        Nat.div_eq_of_lt_le (by omega) (by omega)
      have h2 : (n + n - 1) / n = 1 :=
        Nat.div_eq_of_lt_le (by omega) (by omega)
      rw [h1, h2]

theorem getCell_distribute (cmds : List String) (cols : Nat) (hc : 1 ≤ cols) (c r : Nat) :
    getCell (fillGrid cols 0 cmds (initGrid cols (gridRows cmds.length cols))) c r =
      if c < cols ∧ r * cols + c < cmds.length then cmds.getD (r * cols + c) "" else "" := by
  rw [getCell_fillGrid cols (gridRows cmds.length cols) (by omega) cmds 0
    (initGrid cols (gridRows cmds.length cols))
    (length_initGrid _ _)
    (fun c' hc' => colLen_initGrid _ _ c' hc')
    (fun j hj => by simpa using div_lt_gridRows cmds.length cols j hc hj)
    c r]
  by_cases h : c < cols ∧ r * cols + c < cmds.length
  · have h' : c < cols ∧ 0 ≤ r * cols + c ∧ r * cols + c < 0 + cmds.length := by
      constructor
      · exact h.1
      · omega
    rw [if_pos h', if_pos h]
    rfl
  · have h' : ¬ (c < cols ∧ 0 ≤ r * cols + c ∧ r * cols + c < 0 + cmds.length) := by
      intro hx
      exact h ⟨hx.1, by omega⟩
    rw [if_neg h', if_neg h, getCell_initGrid]

theorem goUntil_natCast (n : Nat) : goUntil (n : Int) = some (List.range n) := by
  unfold goUntil
  rw [if_neg (by omega)]
  simp

theorem layoutColsOps_nil_col (d : String) (rest : List (List String)) :
    layoutColsOps d (([] : List String) :: rest) = none := by
  have h : goUntil (-1 : Int) = none := by decide
  simp [layoutColsOps, colOps, h]

/-! ### Claim theorems: layout -/

/-- C5: for every command list and every `columns >= 1` the layout computes
`rows = ceil(n / min(columns, max(n,1)))` (every column of the produced grid
has that many cells), assigns command `i` to column `i % columns`, row
`i / columns`, and no two distinct command indices share a cell. -/
theorem C5_rows_and_placement (cmds : List String) (cols : Nat) (hc : 1 ≤ cols) :
    ∃ g, distributeCommands cmds cols = some g ∧
      g.length = cols ∧
      (∀ col ∈ g, col.length =
        ceilDivSpec cmds.length (min cols (max cmds.length 1))) ∧
      (∀ i, i < cmds.length → getCell g (i % cols) (i / cols) = cmds.getD i "") ∧
      (∀ i j, i < cmds.length → j < cmds.length → i ≠ j →
        i % cols ≠ j % cols ∨ i / cols ≠ j / cols) := by
  refine ⟨_, distributeCommands_eq cmds cols hc, ?_, ?_, ?_, ?_⟩
  · rw [length_fillGrid, length_initGrid]
  · intro col hmem
    rw [← gridRows_eq_spec cmds.length cols hc]
    obtain ⟨i, hi, hcol⟩ := List.mem_iff_getElem.mp hmem
    have hlen : i < cols := by
      rw [length_fillGrid, length_initGrid] at hi
      exact hi
    rw [← hcol, ← getD_eq_get _ i [] hi, colLen_fillGrid, colLen_initGrid _ _ i hlen]
  · intro i hi
    rw [getCell_distribute cmds cols hc]
    have hmod : i % cols < cols := Nat.mod_lt _ (by omega)
    have heq : i / cols * cols + i % cols = i := by
      rw [Nat.mul_comm]
      exact Nat.div_add_mod i cols
    rw [heq, if_pos ⟨hmod, hi⟩]
  · intro i j _ _ hne
    by_contra h
    push_neg at h
    apply hne
    have h1 := Nat.div_add_mod i cols
    have h2 := Nat.div_add_mod j cols
    rw [← h1, ← h2, h.1, h.2]

/-- Witness for C5 at `cmds = ["a","b","c"]`, `columns = 2`. -/
theorem C5_witness :
    1 ≤ 2 ∧
    (∃ g, distributeCommands ["a", "b", "c"] 2 = some g ∧
      g.length = 2 ∧
      (∀ col ∈ g, col.length = ceilDivSpec 3 (min 2 (max 3 1))) ∧
      (∀ i, i < 3 → getCell g (i % 2) (i / 2) = (["a", "b", "c"]).getD i "") ∧
      (∀ i j, i < 3 → j < 3 → i ≠ j → i % 2 ≠ j % 2 ∨ i / 2 ≠ j / 2)) :=
  ⟨by decide, C5_rows_and_placement ["a", "b", "c"] 2 (by decide)⟩

/-- C1 counterexample: with one command and two columns the layout keeps two
columns — the column count is not clamped down to one — and the produced grid
has a second column holding no command. -/
theorem C1_counterexample :
    (distributeCommands ["a"] 2).map List.length ≠ some 1 ∧
    distributeCommands ["a"] 2 = some [["a"], [""]] := by
  constructor
  · decide
  · decide

/-- C1 (amended): the layout never clamps the column count: for every
`columns >= 1` the grid has exactly `columns` columns, and when
`columns > n` the columns with index `>= n` consist entirely of
empty-string cells, i.e. the grid does contain columns holding no
command. -/
theorem C1_no_clamping (cmds : List String) (cols : Nat) (hc : 1 ≤ cols)
    (_hgt : cmds.length < cols) :
    ∃ g, distributeCommands cmds cols = some g ∧ g.length = cols ∧
      ∀ c r, cmds.length ≤ c → getCell g c r = "" := by
  refine ⟨_, distributeCommands_eq cmds cols hc, ?_, ?_⟩
  · rw [length_fillGrid, length_initGrid]
  · intro c r hcn
    rw [getCell_distribute cmds cols hc, if_neg]
    intro hx
    have h5 : cmds.length ≤ r * cols + c := le_trans hcn (Nat.le_add_left c _)
    exact absurd hx.2 (Nat.not_lt.mpr h5)

/-- Witness for C1 (amended) at one command and three columns. -/
theorem C1_no_clamping_witness :
    1 ≤ 3 ∧ (1 : Nat) < 3 ∧
    (∃ g, distributeCommands ["a"] 3 = some g ∧ g.length = 3 ∧
      ∀ c r, 1 ≤ c → getCell g c r = "") :=
  ⟨by decide, by decide, C1_no_clamping ["a"] 3 (by decide) (by decide)⟩

theorem distributeCommands_zero_cols (cmds : List String) :
    distributeCommands cmds 0 = none := by
  simp [distributeCommands, goDiv]

theorem runGen_zero_cols (cmds : List String) (ntab : Bool) (d : String) :
    runGen cmds 0 ntab d = none := by
  simp [runGen, goDiv]

/-- C10: with `columns = 0` the row computation `(len(cmds)+cols-1)/cols`
divides by zero, so both `distributeCommands` and the generation core of
`run` abort with a runtime panic (modelled `none`) instead of returning
an error value. -/
theorem C10_zero_columns (cmds : List String) (ntab : Bool) (d : String) :
    distributeCommands cmds 0 = none ∧ runGen cmds 0 ntab d = none :=
  ⟨distributeCommands_zero_cols cmds, runGen_zero_cols cmds ntab d⟩

/-- C9: script generation is deterministic — two generation runs over the same
command list and configuration (columns, new-tab flag, delay) yield identical
operation sequences. -/
theorem C9_deterministic (cmds : List String) (cols : Nat) (ntab : Bool) (d : String)
    (r1 r2 : Option (List Op)) (h1 : r1 = runGen cmds cols ntab d)
    (h2 : r2 = runGen cmds cols ntab d) : r1 = r2 := by
  rw [h1, h2]

/-- Witness for C9 at a concrete input. -/
theorem C9_witness :
    runGen ["a", "b"] 2 true "0.25" = runGen ["a", "b"] 2 true "0.25" :=
  C9_deterministic ["a", "b"] 2 true "0.25" _ _ rfl rfl

/-- C8: the two iterations of the tool in the repository are not behaviorally
equivalent: on the command list `["a","b","c"]` with two columns, a new tab and
any delay, the templates of `src/it2open.go` and `src/unnamed/part_000` emit
different operation sequences. -/
theorem C8_versions_differ :
    ∃ (cmds : List String) (cols : Nat) (ntab : Bool) (d : String),
      runGen cmds cols ntab d ≠ some (appleScriptOpsV0 cols ntab d cmds) :=
  ⟨["a", "b", "c"], 2, true, "0.25", by decide⟩

theorem runGen_nil_cmds (cols : Nat) (ntab : Bool) (d : String) (hc : 1 ≤ cols) :
    runGen [] cols ntab d = none := by
  obtain ⟨m, rfl⟩ : ∃ m, cols = m + 1 := ⟨cols - 1, by omega⟩
  have hlay : distributeCommands [] (m + 1) =
      some (List.replicate (m + 1) ([] : List String)) := by
    rw [distributeCommands_eq _ _ (by omega)]
    simp [fillGrid, initGrid, gridRows, Nat.div_eq_of_lt (Nat.lt_succ_self m)]
  have hdiv : goDiv (([] : List String).length + (m + 1) - 1) (m + 1) = some 0 := by
    simp [goDiv, Nat.div_eq_of_lt (Nat.lt_succ_self m)]
  rw [runGen, hdiv, Option.some_bind, hlay, Option.some_bind, appleScriptOps,
    vertOps, goUntil_natCast, Option.map_some', Option.some_bind,
    List.replicate_succ, layoutColsOps_nil_col, Option.map_none']

/-- C3: for an empty command list the computed row count is zero, every column
of the layout is empty, and the template's `until (sub (len $col) 1)` helper is
called with `-1` — `make([]int, -1)` aborts with a runtime panic, so generation
does not succeed with an empty operation sequence. -/
theorem C3_empty_cmds_panics (cols : Nat) (ntab : Bool) (d : String) (hc : 1 ≤ cols) :
    runGen [] cols ntab d = none :=
  runGen_nil_cmds cols ntab d hc

/-- Witness for C3 at one column. -/
theorem C3_witness :
    1 ≤ 1 ∧ runGen [] 1 true "0.25" = none :=
  ⟨by decide, C3_empty_cmds_panics 1 true "0.25" (by decide)⟩

/-! ### Shape of the generated sequence for a non-empty command list -/

theorem filterMap_range_verts (cols : Nat) :
    ((List.range cols).filterMap fun i => if 0 < i then some Op.splitV else none)
      = List.replicate (cols - 1) Op.splitV := by
  induction cols with
  | zero => rfl
  | succ m ih =>
    rw [List.range_succ, List.filterMap_append, ih]
    cases m with
    | zero => rfl
    | succ k => simp [List.replicate_succ']

theorem vertOps_eq (cols : Nat) :
    vertOps cols = some (List.replicate (cols - 1) Op.splitV) := by
  rw [vertOps, goUntil_natCast, Option.map_some', filterMap_range_verts]

theorem gridRows_pos (n cols : Nat) (hc : 1 ≤ cols) (hn : 1 ≤ n) :
    1 ≤ gridRows n cols := by
  rw [gridRows_succ n cols hc hn]
  exact Nat.le_add_left 1 _

theorem gridRows_one (cols : Nat) (hc : 1 ≤ cols) : gridRows 1 cols = 1 := by
  unfold gridRows
  have h : 1 + cols - 1 = cols := by omega
  rw [h, Nat.div_self (by omega)]

theorem layoutColsOps_uniform (d : String) (R : Nat) (hR : 1 ≤ R) :
    ∀ (g : List (List String)), (∀ col ∈ g, col.length = R) →
      layoutColsOps d g = some (colsSection d R g.length) := by
  intro g
  induction g with
  | nil => intro _; rfl
  | cons col rest ih =>
    intro hmem
    have hcol : col.length = R := hmem col (List.mem_cons_self ..)
    have hrest := ih fun c hcmem => hmem c (List.mem_cons_of_mem col hcmem)
    have hgu : goUntil ((col.length : Int) - 1) = some (List.range (R - 1)) := by
      rw [hcol]
      unfold goUntil
      rw [if_neg (by omega)]
      have h1 : ((R : Int) - 1).toNat = R - 1 := by omega
      rw [h1]
    simp only [layoutColsOps, colOps, hgu, Option.map_some', Option.some_bind, hrest,
      List.length_cons, colsSection]

theorem runGen_eq (cmds : List String) (cols : Nat) (ntab : Bool) (d : String)
    (hc : 1 ≤ cols) (hn : cmds ≠ []) :
    runGen cmds cols ntab d = some (
      (if ntab then [Op.newTab] else []) ++ List.replicate (cols - 1) Op.splitV
        ++ [Op.delay d] ++ colsSection d (gridRows cmds.length cols) cols
        ++ [Op.delay d] ++ writeOps d cmds) := by
  have h0 : cols ≠ 0 := by omega
  have hn1 : 1 ≤ cmds.length := List.length_pos.mpr hn
  have hdiv : goDiv (cmds.length + cols - 1) cols = some (gridRows cmds.length cols) := by
    simp [goDiv, gridRows, h0]
  have hR : 1 ≤ gridRows cmds.length cols := gridRows_pos _ _ hc hn1
  have hmem : ∀ col ∈ fillGrid cols 0 cmds (initGrid cols (gridRows cmds.length cols)),
      col.length = gridRows cmds.length cols := by
    intro col hm
    obtain ⟨i, hi, hcol⟩ := List.mem_iff_getElem.mp hm
    have hlen : i < cols := by
      rw [length_fillGrid, length_initGrid] at hi
      exact hi
    rw [← hcol, ← getD_eq_get _ i [] hi, colLen_fillGrid, colLen_initGrid _ _ i hlen]
  have hlayops := layoutColsOps_uniform d (gridRows cmds.length cols) hR _ hmem
  rw [length_fillGrid, length_initGrid] at hlayops
  rw [runGen, hdiv, Option.some_bind, distributeCommands_eq cmds cols hc, Option.some_bind,
    appleScriptOps, vertOps_eq, Option.some_bind, hlayops, Option.map_some']

theorem runGen_some_imp (cmds : List String) (cols : Nat) (ntab : Bool) (d : String)
    (ops : List Op) (h : runGen cmds cols ntab d = some ops) :
    1 ≤ cols ∧ cmds ≠ [] := by
  have hcols : 1 ≤ cols := by
    rcases Nat.eq_zero_or_pos cols with h0 | hpos
    · rw [h0, runGen_zero_cols] at h
      exact Option.noConfusion h
    · exact hpos
  refine ⟨hcols, ?_⟩
  intro hnil
  rw [hnil, runGen_nil_cmds cols ntab d hcols] at h
  exact Option.noConfusion h

theorem runGen_shape (cmds : List String) (cols : Nat) (ntab : Bool) (d : String)
    (ops : List Op) (h : runGen cmds cols ntab d = some ops) :
    ops = (if ntab then [Op.newTab] else []) ++ List.replicate (cols - 1) Op.splitV
      ++ [Op.delay d] ++ colsSection d (gridRows cmds.length cols) cols
      ++ [Op.delay d] ++ writeOps d cmds := by
  obtain ⟨hc, hn⟩ := runGen_some_imp cmds cols ntab d ops h
  rw [runGen_eq cmds cols ntab d hc hn] at h
  exact (Option.some.inj h).symm

/-! ### Filter and count lemmas over the sections -/

theorem filter_true_replicate (p : Op → Bool) (n : Nat) (a : Op) (h : p a = true) :
    (List.replicate n a).filter p = List.replicate n a := by
  induction n with
  | zero => rfl
  | succ m ih => rw [List.replicate_succ, List.filter_cons_of_pos h, ih]

theorem filter_core_rowSplitOps (d : String) (l : List Nat) :
    (rowSplitOps d l).filter coreOp = List.replicate l.length Op.splitH := by
  induction l with
  | nil => rfl
  | cons x rest ih => simp [rowSplitOps, coreOp, ih, List.replicate_succ]

theorem filter_core_colsSection (d : String) (R : Nat) :
    ∀ m, (colsSection d R m).filter coreOp = List.replicate (m * (R - 1)) Op.splitH := by
  intro m
  induction m with
  | zero => simp [colsSection, Nat.zero_mul]
  | succ k ih =>
    simp only [colsSection, List.filter_append, filter_core_rowSplitOps, ih,
      List.length_range]
    rw [show ([Op.focusNext] : List Op).filter coreOp = [] from rfl, List.append_nil,
      ← List.replicate_add]
    congr 1
    rw [Nat.succ_mul]
    exact Nat.add_comm _ _

theorem filter_core_writeOps (d : String) (cmds : List String) :
    (writeOps d cmds).filter coreOp = cmds.map Op.write := by
  induction cmds with
  | nil => rfl
  | cons c rest ih => simp [writeOps, coreOp, ih]

theorem filterMap_write_rowSplitOps (d : String) (l : List Nat) :
    (rowSplitOps d l).filterMap writeArg = [] := by
  induction l with
  | nil => rfl
  | cons x rest ih => simp [rowSplitOps, writeArg, ih]

theorem filterMap_write_colsSection (d : String) (R : Nat) :
    ∀ m, (colsSection d R m).filterMap writeArg = [] := by
  intro m
  induction m with
  | zero => rfl
  | succ k ih =>
    simp [colsSection, List.filterMap_append, filterMap_write_rowSplitOps, ih, writeArg]

theorem filterMap_write_writeOps (d : String) (cmds : List String) :
    (writeOps d cmds).filterMap writeArg = cmds := by
  induction cmds with
  | nil => rfl
  | cons c rest ih => simp [writeOps, writeArg, ih]

theorem runGen_filter_core (cmds : List String) (cols : Nat) (ntab : Bool) (d : String)
    (ops : List Op) (h : runGen cmds cols ntab d = some ops) :
    ops.filter coreOp =
      (if ntab then [Op.newTab] else []) ++ List.replicate (cols - 1) Op.splitV
        ++ List.replicate (cols * (gridRows cmds.length cols - 1)) Op.splitH
        ++ cmds.map Op.write := by
  rw [runGen_shape cmds cols ntab d ops h]
  cases ntab <;>
    simp [List.filter_append, filter_core_colsSection, filter_core_writeOps,
      filter_true_replicate coreOp _ Op.splitV rfl, coreOp]

theorem runGen_writes (cmds : List String) (cols : Nat) (ntab : Bool) (d : String)
    (ops : List Op) (h : runGen cmds cols ntab d = some ops) :
    ops.filterMap writeArg = cmds := by
  rw [runGen_shape cmds cols ntab d ops h]
  cases ntab <;>
    simp [List.filterMap_append, filterMap_write_colsSection, filterMap_write_writeOps,
      filterMap_replicate_none writeArg _ Op.splitV rfl, writeArg]

theorem countP_map_write (p : Op → Bool) (hp : ∀ s, p (Op.write s) = false)
    (cmds : List String) : (cmds.map Op.write).countP p = 0 := by
  induction cmds with
  | nil => rfl
  | cons c rest ih => simp [List.countP_cons, hp, ih]

theorem countP_eq_countP_filter_core (p : Op → Bool) (hp : ∀ a, (p a && coreOp a) = p a)
    (l : List Op) : l.countP p = (l.filter coreOp).countP p := by
  rw [List.countP_filter]
  congr 1
  funext a
  exact (hp a).symm

theorem runGen_split_counts (cmds : List String) (cols : Nat) (ntab : Bool) (d : String)
    (ops : List Op) (h : runGen cmds cols ntab d = some ops) :
    ops.countP isVert = cols - 1 ∧
    ops.countP isHoriz = cols * (gridRows cmds.length cols - 1) ∧
    ops.countP isSplit = (cols - 1) + cols * (gridRows cmds.length cols - 1) := by
  have hshape := runGen_filter_core cmds cols ntab d ops h
  have hV : ∀ a, (isVert a && coreOp a) = isVert a := by intro a; cases a <;> rfl
  have hH : ∀ a, (isHoriz a && coreOp a) = isHoriz a := by intro a; cases a <;> rfl
  have hS : ∀ a, (isSplit a && coreOp a) = isSplit a := by intro a; cases a <;> rfl
  refine ⟨?_, ?_, ?_⟩
  · rw [countP_eq_countP_filter_core isVert hV, hshape]
    cases ntab <;>
      simp [List.countP_append, countP_replicate, countP_map_write isVert fun _ => rfl,
        isVert, List.countP_cons]
  · rw [countP_eq_countP_filter_core isHoriz hH, hshape]
    cases ntab <;>
      simp [List.countP_append, countP_replicate, countP_map_write isHoriz fun _ => rfl,
        isHoriz, List.countP_cons]
  · rw [countP_eq_countP_filter_core isSplit hS, hshape]
    cases ntab <;>
      simp [List.countP_append, countP_replicate, countP_map_write isSplit fun _ => rfl,
        isSplit, List.countP_cons]

theorem filterMap_write_stepOpsV0 (d : String) (cols k : Nat) (c : String) :
    (stepOpsV0 d cols k c).filterMap writeArg = [c] := by
  unfold stepOpsV0
  by_cases h1 : k < cols
  · by_cases h2 : 0 < k <;>
      simp [h1, h2, List.filterMap_append, writeArg]
  · simp [h1, List.filterMap_append, writeArg,
      filterMap_replicate_none writeArg _ Op.focusNext rfl]

theorem filterMap_write_bodyV0 (d : String) (cols : Nat) (cmds : List String) :
    ∀ k, (bodyOpsV0 d cols k cmds).filterMap writeArg = cmds := by
  induction cmds with
  | nil => intro k; rfl
  | cons c rest ih =>
    intro k
    simp [bodyOpsV0, List.filterMap_append, filterMap_write_stepOpsV0, ih]

/-! ### Claim theorems: generated operation sequence -/

/-- C2 counterexample: for the spec's own example — five commands, two columns —
the generated sequence contains 5 split operations (1 vertical, 4 horizontal),
not the 4 the claim states: a horizontal split is also emitted for the padded
grid cell not covered by any command. -/
theorem C2_counterexample :
    ((runGen ["a", "b", "c", "d", "e"] 2 true "0.25").map
      fun ops => ops.countP isSplit) ≠ some 4 ∧
    ((runGen ["a", "b", "c", "d", "e"] 2 true "0.25").map
      fun ops => ops.countP isSplit) = some 5 ∧
    ((runGen ["a", "b", "c", "d", "e"] 2 true "0.25").map
      fun ops => ops.countP isVert) = some 1 ∧
    ((runGen ["a", "b", "c", "d", "e"] 2 true "0.25").map
      fun ops => ops.countP isHoriz) = some 4 :=
  ⟨by decide, by decide, by decide, by decide⟩

/-- C2 (amended): for a non-empty command list and `columns >= 1` the sequence
carries exactly `columns - 1` vertical splits and `columns * (rows - 1)`
horizontal splits, `rows = (n + columns - 1) / columns`: every column of the
padded grid contributes `rows - 1` horizontal splits, including cells holding
no command, so the total is `(columns - 1) + columns * (rows - 1)`. -/
theorem C2_split_operation_totals (cmds : List String) (cols : Nat) (ntab : Bool)
    (d : String) (hc : 1 ≤ cols) (hn : cmds ≠ []) :
    ∃ ops, runGen cmds cols ntab d = some ops ∧
      ops.countP isVert = cols - 1 ∧
      ops.countP isHoriz = cols * (gridRows cmds.length cols - 1) ∧
      ops.countP isSplit = (cols - 1) + cols * (gridRows cmds.length cols - 1) := by
  obtain ⟨h1, h2, h3⟩ :=
    runGen_split_counts cmds cols ntab d _ (runGen_eq cmds cols ntab d hc hn)
  exact ⟨_, runGen_eq cmds cols ntab d hc hn, h1, h2, h3⟩

/-- Witness for C2 (amended) at the spec's example input. -/
theorem C2_witness :
    1 ≤ 2 ∧ (["a", "b", "c", "d", "e"] : List String) ≠ [] ∧
    (∃ ops, runGen ["a", "b", "c", "d", "e"] 2 true "0.25" = some ops ∧
      ops.countP isVert = 1 ∧ ops.countP isHoriz = 4 ∧ ops.countP isSplit = 5) :=
  ⟨by decide, by decide,
    C2_split_operation_totals ["a", "b", "c", "d", "e"] 2 true "0.25"
      (by decide) (by decide)⟩

/-- C4 counterexample: one command with two columns yields a sequence with one
split operation (the vertical split from the unclamped column loop), not
zero. -/
theorem C4_counterexample :
    ((runGen ["a"] 2 true "0.25").map fun ops => ops.countP isSplit) ≠ some 0 ∧
    ((runGen ["a"] 2 true "0.25").map fun ops => ops.countP isSplit) = some 1 :=
  ⟨by decide, by decide⟩

/-- C4 (amended): for a single command and `columns >= 1` the sequence contains
exactly `columns - 1` split operations, all vertical (none horizontal), and
exactly one `WriteText` carrying that command; only for `columns = 1` are there
zero splits. -/
theorem C4_single_command (cmd : String) (cols : Nat) (ntab : Bool) (d : String)
    (hc : 1 ≤ cols) :
    ∃ ops, runGen [cmd] cols ntab d = some ops ∧
      ops.countP isVert = cols - 1 ∧ ops.countP isHoriz = 0 ∧
      ops.countP isSplit = cols - 1 ∧
      ops.filterMap writeArg = [cmd] := by
  have h := runGen_eq [cmd] cols ntab d hc (by simp)
  obtain ⟨h1, h2, h3⟩ := runGen_split_counts [cmd] cols ntab d _ h
  have hw := runGen_writes [cmd] cols ntab d _ h
  have hR : gridRows (List.length [cmd]) cols = 1 := gridRows_one cols hc
  refine ⟨_, h, h1, ?_, ?_, hw⟩
  · rw [h2, hR]
    simp
  · rw [h3, hR]
    simp

/-- Witness for C4 (amended) at one command and three columns. -/
theorem C4_witness :
    1 ≤ 3 ∧
    (∃ ops, runGen ["ls"] 3 true "0.25" = some ops ∧
      ops.countP isVert = 2 ∧ ops.countP isHoriz = 0 ∧ ops.countP isSplit = 2 ∧
      ops.filterMap writeArg = ["ls"]) :=
  ⟨by decide, C4_single_command "ls" 3 true "0.25" (by decide)⟩

/-- C6: whenever the main template generates a sequence, the `WriteText`
payloads, in emission order, are exactly the input command list; the same holds
for the `part_000` template (which always produces a sequence). -/
theorem C6_writes_in_order (cmds : List String) (cols : Nat) (ntab : Bool) (d : String)
    (ops : List Op) (h : runGen cmds cols ntab d = some ops) :
    ops.filterMap writeArg = cmds ∧
    (appleScriptOpsV0 cols ntab d cmds).filterMap writeArg = cmds := by
  refine ⟨runGen_writes cmds cols ntab d ops h, ?_⟩
  unfold appleScriptOpsV0
  cases ntab <;>
    simp [List.filterMap_append, filterMap_write_bodyV0, writeArg]

/-- Witness for C6 at one command and one column. -/
theorem C6_witness :
    runGen ["a"] 1 true "0.25" = some [Op.newTab, Op.delay "0.25", Op.focusNext,
      Op.delay "0.25", Op.write "a", Op.focusNext, Op.delay "0.25"] ∧
    (([Op.newTab, Op.delay "0.25", Op.focusNext, Op.delay "0.25", Op.write "a",
        Op.focusNext, Op.delay "0.25"] : List Op).filterMap writeArg = ["a"] ∧
      (appleScriptOpsV0 1 true "0.25" ["a"]).filterMap writeArg = ["a"]) :=
  ⟨by decide,
    C6_writes_in_order ["a"] 1 true "0.25"
      [Op.newTab, Op.delay "0.25", Op.focusNext, Op.delay "0.25", Op.write "a",
        Op.focusNext, Op.delay "0.25"] (by decide)⟩

/-- C7: the structural operations of any generated sequence are strictly
phased: the optional `NewTab` first, then exactly `columns - 1` vertical
splits, then all horizontal splits, then all `WriteText` operations — in
particular no split occurs after the first `WriteText`. -/
theorem C7_phase_structure (cmds : List String) (cols : Nat) (ntab : Bool) (d : String)
    (ops : List Op) (h : runGen cmds cols ntab d = some ops) :
    ops.filter coreOp =
      (if ntab then [Op.newTab] else []) ++ List.replicate (cols - 1) Op.splitV
        ++ List.replicate (cols * (gridRows cmds.length cols - 1)) Op.splitH
        ++ cmds.map Op.write :=
  runGen_filter_core cmds cols ntab d ops h

/-- Witness for C7 at three commands and two columns. -/
theorem C7_witness :
    runGen ["a", "b", "c"] 2 true "0.25" = some [Op.newTab, Op.splitV,
      Op.delay "0.25", Op.delay "0.25", Op.splitH, Op.focusNext, Op.focusNext,
      Op.delay "0.25", Op.splitH, Op.focusNext, Op.focusNext, Op.delay "0.25",
      Op.write "a", Op.focusNext, Op.delay "0.25", Op.write "b", Op.focusNext,
      Op.delay "0.25", Op.write "c", Op.focusNext, Op.delay "0.25"] ∧
    (([Op.newTab, Op.splitV, Op.delay "0.25", Op.delay "0.25", Op.splitH,
        Op.focusNext, Op.focusNext, Op.delay "0.25", Op.splitH, Op.focusNext,
        Op.focusNext, Op.delay "0.25", Op.write "a", Op.focusNext, Op.delay "0.25",
        Op.write "b", Op.focusNext, Op.delay "0.25", Op.write "c", Op.focusNext,
        Op.delay "0.25"] : List Op).filter coreOp =
      [Op.newTab, Op.splitV, Op.splitH, Op.splitH, Op.write "a", Op.write "b",
        Op.write "c"]) :=
  ⟨by decide,
    C7_phase_structure ["a", "b", "c"] 2 true "0.25"
      [Op.newTab, Op.splitV, Op.delay "0.25", Op.delay "0.25", Op.splitH,
        Op.focusNext, Op.focusNext, Op.delay "0.25", Op.splitH, Op.focusNext,
        Op.focusNext, Op.delay "0.25", Op.write "a", Op.focusNext, Op.delay "0.25",
        Op.write "b", Op.focusNext, Op.delay "0.25", Op.write "c", Op.focusNext,
        Op.delay "0.25"] (by decide)⟩

end It2Open
